import Mathlib

/-
  Verification of the PAROL6 operator-console motion core
  (src/gui/cartesian.py and src/gui/jog.py).

  Angle and position values that the program stores as floats are modelled
  as exact real numbers (`ℝ`) where the code mixes them with `π`, and as
  exact rationals (`ℚ`) where only field arithmetic and comparisons occur,
  so that concrete instances can be checked by `decide`.
-/

namespace Parol6

/-! ### Poses and the tool catalog (cartesian.py, `ROBOT_TOOLS` / `KinematicsEngine`) -/

/-- A pose: position vector and rotation matrix, as carried by the
4x4 homogeneous matrices in `cartesian.py` (`[:3, 3]` and `[:3, :3]` blocks). -/
structure Pose3 where
  pos : Fin 3 → ℝ
  rot : Matrix (Fin 3) (Fin 3) ℝ

/-- Source: `KinematicsEngine.world_offset = np.array([0.0, 0.0, 0.0])`. -/
def world_offset : Fin 3 → ℝ := ![0, 0, 0]

/-- Source: `np.radians` / `np.deg2rad`: degrees to radians. -/
noncomputable def radians (d : ℝ) : ℝ := d * (Real.pi / 180)

/-- Rotation matrix about the x axis (scipy `R.from_euler('x', a)`). -/
noncomputable def rot_x (a : ℝ) : Matrix (Fin 3) (Fin 3) ℝ :=
  !![1, 0, 0; 0, Real.cos a, -Real.sin a; 0, Real.sin a, Real.cos a]

/-- Rotation matrix about the y axis (scipy `R.from_euler('y', a)`). -/
noncomputable def rot_y (a : ℝ) : Matrix (Fin 3) (Fin 3) ℝ :=
  !![Real.cos a, 0, Real.sin a; 0, 1, 0; -Real.sin a, 0, Real.cos a]

/-- Rotation matrix about the z axis (scipy `R.from_euler('z', a)`). -/
noncomputable def rot_z (a : ℝ) : Matrix (Fin 3) (Fin 3) ℝ :=
  !![Real.cos a, -Real.sin a, 0; Real.sin a, Real.cos a, 0; 0, 0, 1]

/-- scipy `R.from_euler('xyz', [ax, ay, az], degrees=True).as_matrix()`:
extrinsic x-y-z rotations, composed as `Rz * Ry * Rx`, angles in degrees. -/
noncomputable def euler_xyz_deg (ax ay az : ℝ) : Matrix (Fin 3) (Fin 3) ℝ :=
  rot_z (radians az) * rot_y (radians ay) * rot_x (radians ax)

/-- Source: `ROBOT_TOOLS["CHWYTAK_MALY"]["translation"] = [0.100, 0.0, -0.090]`. -/
noncomputable def CHWYTAK_MALY_translation : Fin 3 → ℝ := ![0.100, 0, -0.090]

/-- The rotation matrix registered by `set_tool("CHWYTAK_MALY")` from the
catalog orientation `[0.0, -180.0, 0.0]` of `ROBOT_TOOLS`. -/
noncomputable def CHWYTAK_MALY_rotation : Matrix (Fin 3) (Fin 3) ℝ :=
  euler_xyz_deg 0 (-180) 0

/-- Source: `KinematicsEngine.forward_kinematics`, with the ikpy chain forward map
abstracted as `chainFK` (it is an external library call):
the flange pose of the joint vector is composed with the active tool frame,
`P_tcp = P_flange + R_flange * tool_translation + world_offset` and
`R_tcp = R_flange * tool_rotation_matrix`. -/
noncomputable def forward_kinematics (chainFK : (Fin 6 → ℝ) → Pose3)
    (tool_translation : Fin 3 → ℝ) (tool_rotation_matrix : Matrix (Fin 3) (Fin 3) ℝ)
    (active_angles : Fin 6 → ℝ) : Pose3 :=
  { pos := (chainFK active_angles).pos +
      (chainFK active_angles).rot.mulVec tool_translation + world_offset
    rot := (chainFK active_angles).rot * tool_rotation_matrix }

/-- The identity flange pose (zero position, identity rotation). -/
def identity_pose : Pose3 := { pos := 0, rot := 1 }

/-! ### Joint-space jog view: per-joint limits and tick (jog.py `JogView`) -/

/-- Source: `JogView.joint_limits` (degrees), in J1..J6 order. -/
def joint_limits : Fin 6 → ℚ × ℚ :=
  ![(-90, 90), (-50, 140), (-100, 70), (-100, 180), (-120, 110), (-110, 180)]

/-- One iteration of `JogView._jog_thread` for the jogged joint: the target
moves by `STEP_INCREMENT = 0.5` degrees in the button's direction and is then
clamped into the joint's configured limit range. -/
def jog_joint_tick (j : Fin 6) (plus : Bool) (current : ℚ) : ℚ :=
  if current + 0.5 * (if plus then 1 else -1) < (joint_limits j).1 then (joint_limits j).1
  else if current + 0.5 * (if plus then 1 else -1) > (joint_limits j).2 then (joint_limits j).2
  else current + 0.5 * (if plus then 1 else -1)

/-! ### Cartesian jog tick: workspace clamp (cartesian.py `_jog_thread`) -/

/-- The six jog axes of the Cartesian view. -/
inductive JogAxis | x | y | z | rx | ry | rz
deriving DecidableEq

/-- Source: `sign = 1 if direction == "plus" else -1`. -/
def jog_sign (direction_plus : Bool) : ℚ := if direction_plus then 1 else -1

/-- Source: `step_mm = max(0.2, BASE_STEP_MM * factor)` with `BASE_STEP_MM = 2.0` and
`factor = jog_speed_percent / 100`. -/
def jog_step_mm (speed_percent : ℚ) : ℚ := max 0.2 (2.0 * (speed_percent / 100))

/-- The translational delta `[dx, dy, dz]` (millimeters) of one jog tick. -/
def jog_delta_mm (axis : JogAxis) (step_mm sign : ℚ) : Fin 3 → ℚ :=
  match axis with
  | .x => ![step_mm * sign, 0, 0]
  | .y => ![0, step_mm * sign, 0]
  | .z => ![0, 0, step_mm * sign]
  | _ => ![0, 0, 0]

/-- Source: `np.clip(v, lo, hi)`. -/
def np_clip (v lo hi : ℚ) : ℚ := min (max v lo) hi

/-- Source: `WORKSPACE_LIMITS` of `_jog_thread` (meters). -/
def workspace_x : ℚ × ℚ := (-0.700, 0.700)

def workspace_y : ℚ × ℚ := (-0.700, 0.700)

def workspace_z : ℚ × ℚ := (-0.300, 0.900)

/-- The candidate target TCP position of one Cartesian jog tick:
`target_pos = current_pos + [dx, dy, dz] / 1000`, then each axis is
independently clamped by `np.clip` into `WORKSPACE_LIMITS`.  This is the
position handed to the inverse-kinematics solve of the tick. -/
def jog_target_pos (current_pos : Fin 3 → ℚ) (axis : JogAxis) (direction_plus : Bool)
    (step_mm : ℚ) : Fin 3 → ℚ :=
  ![np_clip (current_pos 0 + jog_delta_mm axis step_mm (jog_sign direction_plus) 0 / 1000)
      workspace_x.1 workspace_x.2,
    np_clip (current_pos 1 + jog_delta_mm axis step_mm (jog_sign direction_plus) 1 / 1000)
      workspace_y.1 workspace_y.2,
    np_clip (current_pos 2 + jog_delta_mm axis step_mm (jog_sign direction_plus) 2 / 1000)
      workspace_z.1 workspace_z.2]

/-! ### Cartesian jog tick: accept / blend / reject (cartesian.py `_jog_thread`) -/

/-- Source: `max_diff = max(abs(nj_model[i] - current_raw[i]) for i in range(6))`. -/
def max_joint_diff (nj current : Fin 6 → ℚ) : ℚ :=
  max |nj 0 - current 0| (max |nj 1 - current 1| (max |nj 2 - current 2|
    (max |nj 3 - current 3| (max |nj 4 - current 4| |nj 5 - current 5|))))

/-- The commanded vector after the accept/blend/reject step of one Cartesian
jog tick.  `solved = none` models the IK solve raising an exception, which the
code catches with a bare `except: pass` (no state change).  Otherwise `solved`
carries the normalized solver result `nj_model` and the code compares the
maximum per-joint jump against the 0.3 / 0.6 rad thresholds, with blend
factor 0.2. -/
def jog_command_update (current : Fin 6 → ℚ) : Option (Fin 6 → ℚ) → Fin 6 → ℚ
  | none => current
  | some nj =>
    if max_joint_diff nj current < 0.3 then nj
    else if max_joint_diff nj current < 0.6 then
      fun i => current i + 0.2 * (nj i - current i)
    else current

/-! ### Chain mask expand/compress (cartesian.py `_active_to_full` / `_full_to_active`) -/

/-- Source: `np.resize(arr, n)` for a 1-d float array: an empty array resizes to
zeros; otherwise the result repeats the input cyclically, truncating when the
input is longer than `n`. -/
def np_resize (arr : List ℚ) (n : Nat) : List ℚ :=
  if arr.isEmpty then List.replicate n 0
  else (List.range n).map fun i => arr.getD (i % arr.length) 0

/-- The length shim at the top of `_active_to_full`: a 7-element input drops
its first element; any input whose length then differs from 6 goes through
`np.resize(arr, 6)`. -/
def length_shim (active : List ℚ) : List ℚ :=
  let arr := if active.length = 7 then active.tail else active
  if arr.length ≠ 6 then np_resize arr 6 else arr

/-- The scatter loop of `_active_to_full`: walk the mask; at an active link
consume the next reduced value while any remain (`curr < 6` in the code,
since the shimmed input always has exactly six entries), and write 0 at every
other position. -/
def scatter_active : List Bool → List ℚ → List ℚ
  | [], _ => []
  | true :: ms, v :: vs => v :: scatter_active ms vs
  | true :: ms, [] => 0 :: scatter_active ms []
  | false :: ms, vs => 0 :: scatter_active ms vs

/-- Source: `KinematicsEngine._active_to_full`. -/
def active_to_full (mask : List Bool) (active : List ℚ) : List ℚ :=
  scatter_active mask (length_shim active)

/-- Source: `np.compress(mask, full)`: the values of `full` at the positions where
the mask is true. -/
def gather_active (mask : List Bool) (full : List ℚ) : List ℚ :=
  ((mask.zip full).filter fun p => p.1).map fun p => p.2

/-- Source: `KinematicsEngine._full_to_active`: `np.compress` over the active mask,
or a zero 6-vector when the mask is empty (mock chain). -/
def full_to_active (mask : List Bool) (full : List ℚ) : List ℚ :=
  if mask.isEmpty then List.replicate 6 0 else gather_active mask full

/-- Number of active (true) entries of a mask. -/
def num_active : List Bool → Nat
  | [] => 0
  | true :: ms => num_active ms + 1
  | false :: ms => num_active ms

/-! ### Helper lemmas -/

lemma length_shim_of_length_six (active : List ℚ) (h : active.length = 6) :
    length_shim active = active := by
  simp [length_shim, h]

lemma gather_cons_true (ms : List Bool) (v : ℚ) (fs : List ℚ) :
    gather_active (true :: ms) (v :: fs) = v :: gather_active ms fs := by
  simp [gather_active]

lemma gather_cons_false (ms : List Bool) (v : ℚ) (fs : List ℚ) :
    gather_active (false :: ms) (v :: fs) = gather_active ms fs := by
  simp [gather_active]

lemma gather_active_length (mask : List Bool) (full : List ℚ)
    (h : full.length = mask.length) :
    (gather_active mask full).length = num_active mask := by
  induction mask generalizing full with
  | nil =>
    cases full with
    | nil => rfl
    | cons v fs => simp at h
  | cons b ms ih =>
    cases full with
    | nil => simp at h
    | cons v fs =>
      have h' : fs.length = ms.length := by simpa using h
      cases b
      · rw [gather_cons_false, ih fs h']
        rfl
      · rw [gather_cons_true]
        simp [num_active, ih fs h']

lemma scatter_gather_masked (mask : List Bool) (full : List ℚ)
    (h : full.length = mask.length) :
    scatter_active mask (gather_active mask full) =
      (mask.zip full).map fun p => if p.1 then p.2 else 0 := by
  induction mask generalizing full with
  | nil =>
    cases full with
    | nil => rfl
    | cons v fs => simp at h
  | cons b ms ih =>
    cases full with
    | nil => simp at h
    | cons v fs =>
      have h' : fs.length = ms.length := by simpa using h
      cases b
      · rw [gather_cons_false]
        show 0 :: scatter_active ms (gather_active ms fs) = _
        rw [ih fs h']
        simp
      · rw [gather_cons_true]
        show v :: scatter_active ms (gather_active ms fs) = _
        rw [ih fs h']
        simp

lemma gather_scatter_take (mask : List Bool) (vals : List ℚ) :
    gather_active mask (scatter_active mask vals) =
      vals.take (num_active mask) ++
        List.replicate (num_active mask - vals.length) 0 := by
  induction mask generalizing vals with
  | nil => simp [gather_active, scatter_active, num_active]
  | cons b ms ih =>
    cases b
    · show gather_active (false :: ms) (0 :: scatter_active ms vals) = _
      rw [gather_cons_false, ih]
      simp [num_active]
    · cases vals with
      | nil =>
        show gather_active (true :: ms) (0 :: scatter_active ms []) = _
        rw [gather_cons_true, ih]
        simp [num_active, List.replicate_succ]
      | cons v vs =>
        show gather_active (true :: ms) (v :: scatter_active ms vs) = _
        rw [gather_cons_true, ih]
        simp [num_active, Nat.succ_sub_succ]

lemma masked_getD (mask : List Bool) (full : List ℚ) (i : Nat)
    (h : full.length = mask.length) (hi : i < mask.length)
    (ha : mask.getD i false = true) :
    ((mask.zip full).map fun p => if p.1 then p.2 else 0).getD i 0 =
      full.getD i 0 := by
  induction mask generalizing full i with
  | nil => simp at hi
  | cons b ms ih =>
    cases full with
    | nil => simp at h
    | cons v fs =>
      have h' : fs.length = ms.length := by simpa using h
      cases i with
      | zero =>
        have hb : b = true := by simpa using ha
        subst hb
        simp
      | succ n =>
        have hn : n < ms.length := by simpa using hi
        have ha' : ms.getD n false = true := by simpa using ha
        simpa using ih fs n h' hn ha'

lemma world_offset_eq_zero : world_offset = 0 := by
  funext i
  fin_cases i <;> rfl

lemma np_clip_le (v lo hi : ℚ) : np_clip v lo hi ≤ hi := min_le_right _ _

lemma le_np_clip (v lo hi : ℚ) (h : lo ≤ hi) : lo ≤ np_clip v lo hi :=
  le_min (le_max_right v lo) h

lemma np_clip_eq_hi (v lo hi : ℚ) (h : hi ≤ v) : np_clip v lo hi = hi :=
  min_eq_right (h.trans (le_max_left v lo))

lemma max_joint_diff_const (a b : ℚ) :
    max_joint_diff (fun _ => a) (fun _ => b) = |a - b| := by
  simp [max_joint_diff]

lemma clamp_chain_mem (nt lo hi : ℚ) (h : lo ≤ hi) :
    lo ≤ (if nt < lo then lo else if nt > hi then hi else nt) ∧
      (if nt < lo then lo else if nt > hi then hi else nt) ≤ hi := by
  split
  · exact ⟨le_refl lo, h⟩
  · rename_i h1
    split
    · exact ⟨h, le_refl hi⟩
    · rename_i h2
      exact ⟨not_lt.mp h1, not_lt.mp h2⟩

/-! ### Theorems for C1, C2, C3, C10 -/

/-- C1: Forward kinematics composes the flange pose with the active tool
frame: for every 6-element joint vector and every chain forward map,
`TCP.pos = Flange.pos + Flange.rot * Tool.translation` and
`TCP.rot = Flange.rot * Tool.rotation`; and with the tool CHWYTAK_MALY and an
identity flange pose the TCP position is exactly (0.100, 0, -0.090) and the
TCP rotation is exactly the tool's rotation matrix. -/
theorem forward_kinematics_composes_tool (chainFK : (Fin 6 → ℝ) → Pose3)
    (tool_translation : Fin 3 → ℝ) (tool_rotation_matrix : Matrix (Fin 3) (Fin 3) ℝ)
    (q : Fin 6 → ℝ) :
    ((forward_kinematics chainFK tool_translation tool_rotation_matrix q).pos =
        (chainFK q).pos + (chainFK q).rot.mulVec tool_translation ∧
      (forward_kinematics chainFK tool_translation tool_rotation_matrix q).rot =
        (chainFK q).rot * tool_rotation_matrix) ∧
    (forward_kinematics (fun _ => identity_pose) CHWYTAK_MALY_translation
        CHWYTAK_MALY_rotation q).pos = ![0.100, 0, -0.090] ∧
    (forward_kinematics (fun _ => identity_pose) CHWYTAK_MALY_translation
        CHWYTAK_MALY_rotation q).rot = CHWYTAK_MALY_rotation := by
  refine ⟨⟨?_, rfl⟩, ?_, ?_⟩
  · show (chainFK q).pos + (chainFK q).rot.mulVec tool_translation + world_offset = _
    rw [world_offset_eq_zero, add_zero]
  · show (0 : Fin 3 → ℝ) + (1 : Matrix (Fin 3) (Fin 3) ℝ).mulVec CHWYTAK_MALY_translation +
      world_offset = ![0.100, 0, -0.090]
    rw [world_offset_eq_zero, add_zero, Matrix.one_mulVec, zero_add]
    rfl
  · show (1 : Matrix (Fin 3) (Fin 3) ℝ) * CHWYTAK_MALY_rotation = CHWYTAK_MALY_rotation
    rw [one_mul]

/-- C2: One Cartesian jog tick, given the current commanded vector and the
normalized solver result: full acceptance below 0.3 rad maximum joint jump,
0.2-blend between 0.3 and 0.6 rad, rejection (commanded unchanged) above
0.6 rad, and no change at all when the solve raises. -/
theorem jog_tick_accept_blend_reject (current nj : Fin 6 → ℚ) :
    jog_command_update current none = current ∧
    (max_joint_diff nj current < 0.3 →
      jog_command_update current (some nj) = nj) ∧
    (0.3 ≤ max_joint_diff nj current → max_joint_diff nj current < 0.6 →
      jog_command_update current (some nj) =
        fun i => current i + 0.2 * (nj i - current i)) ∧
    (0.6 < max_joint_diff nj current →
      jog_command_update current (some nj) = current) := by
  refine ⟨rfl, ?_, ?_, ?_⟩
  · intro h
    simp only [jog_command_update]
    rw [if_pos h]
  · intro h1 h2
    simp only [jog_command_update]
    rw [if_neg (by linarith), if_pos h2]
  · intro h
    simp only [jog_command_update]
    rw [if_neg (by linarith), if_neg (by linarith)]

/-- Witness for C2: concrete ticks exercising each branch (maximum joint
jumps 0.1, 0.4 and 1.0 rad, and a raised solve). -/
theorem jog_tick_accept_blend_reject_witness :
    jog_command_update (fun _ => 0) (some fun _ => 0.1) = (fun _ => 0.1) ∧
    jog_command_update (fun _ => 0) (some fun _ => 0.4) = (fun _ => 0.08) ∧
    jog_command_update (fun _ => 0) (some fun _ => 1) = (fun _ => 0) ∧
    jog_command_update (fun _ => 0) none = (fun _ => 0) := by
  have e1 : max_joint_diff (fun _ => (0.1 : ℚ)) (fun _ => 0) = 0.1 := by
    rw [max_joint_diff_const, sub_zero, abs_of_nonneg (by norm_num : (0 : ℚ) ≤ 0.1)]
  have e2 : max_joint_diff (fun _ => (0.4 : ℚ)) (fun _ => 0) = 0.4 := by
    rw [max_joint_diff_const, sub_zero, abs_of_nonneg (by norm_num : (0 : ℚ) ≤ 0.4)]
  have e3 : max_joint_diff (fun _ => (1 : ℚ)) (fun _ => 0) = 1 := by
    rw [max_joint_diff_const, sub_zero, abs_of_nonneg (by norm_num : (0 : ℚ) ≤ 1)]
  refine ⟨?_, ?_, ?_, ?_⟩
  · exact (jog_tick_accept_blend_reject (fun _ => 0) (fun _ => 0.1)).2.1
      (by rw [e1]; norm_num)
  · exact ((jog_tick_accept_blend_reject (fun _ => 0) (fun _ => 0.4)).2.2.1
      (by rw [e2]; norm_num) (by rw [e2]; norm_num)).trans (by funext i; norm_num)
  · exact (jog_tick_accept_blend_reject (fun _ => 0) (fun _ => 1)).2.2.2
      (by rw [e3]; norm_num)
  · exact (jog_tick_accept_blend_reject (fun _ => 0) (fun _ => 0)).1

/-- C3: The candidate target TCP position of every Cartesian jog tick is
clamped per axis into the workspace box x,y in [-0.700, 0.700] and
z in [-0.300, 0.900] before the IK solve, so the position a tick steers to
always lies inside the box; and a +x jog whose unclamped target exceeds
0.700 m produces a target x of exactly 0.700. -/
theorem jog_target_pos_in_workspace (current_pos : Fin 3 → ℚ) (axis : JogAxis)
    (direction_plus : Bool) (step_mm : ℚ) :
    (-0.700 ≤ jog_target_pos current_pos axis direction_plus step_mm 0 ∧
      jog_target_pos current_pos axis direction_plus step_mm 0 ≤ 0.700) ∧
    (-0.700 ≤ jog_target_pos current_pos axis direction_plus step_mm 1 ∧
      jog_target_pos current_pos axis direction_plus step_mm 1 ≤ 0.700) ∧
    (-0.300 ≤ jog_target_pos current_pos axis direction_plus step_mm 2 ∧
      jog_target_pos current_pos axis direction_plus step_mm 2 ≤ 0.900) ∧
    (∀ speed_percent : ℚ,
      0.700 < current_pos 0 + jog_step_mm speed_percent / 1000 →
      jog_target_pos current_pos JogAxis.x true (jog_step_mm speed_percent) 0 =
        0.700) := by
  refine ⟨⟨?_, ?_⟩, ⟨?_, ?_⟩, ⟨?_, ?_⟩, ?_⟩
  · exact le_np_clip _ (-0.700) 0.700 (by norm_num)
  · exact np_clip_le _ (-0.700) 0.700
  · exact le_np_clip _ (-0.700) 0.700 (by norm_num)
  · exact np_clip_le _ (-0.700) 0.700
  · exact le_np_clip _ (-0.300) 0.900 (by norm_num)
  · exact np_clip_le _ (-0.300) 0.900
  · intro speed_percent hsp
    show np_clip (current_pos 0 + jog_step_mm speed_percent * jog_sign true / 1000)
      workspace_x.1 workspace_x.2 = 0.700
    have hs : jog_step_mm speed_percent * jog_sign true = jog_step_mm speed_percent := by
      simp [jog_sign]
    rw [hs]
    exact np_clip_eq_hi _ _ _ (le_of_lt hsp)

/-- Witness for C3: a +x jog from x = 0.7 m at 50% speed (unclamped target
0.701 m) yields a target x of exactly 0.7 m. -/
theorem jog_target_pos_in_workspace_witness :
    jog_target_pos (fun _ => 0.7) JogAxis.x true (jog_step_mm 50) 0 = 0.700 := by
  have hstep : jog_step_mm 50 = 1 := by
    rw [jog_step_mm, max_def]
    norm_num
  exact (jog_target_pos_in_workspace (fun _ => 0.7) JogAxis.x true
    (jog_step_mm 50)).2.2.2 50 (by rw [hstep]; norm_num)

/-- C10: Every per-joint jog tick of the joint jog view clamps the new
target of the jogged joint into that joint's configured limit range, for any
starting target value and either direction. -/
theorem jog_joint_tick_within_limits (j : Fin 6) (plus : Bool) (current : ℚ) :
    (joint_limits j).1 ≤ jog_joint_tick j plus current ∧
    jog_joint_tick j plus current ≤ (joint_limits j).2 := by
  have hlim : ∀ k : Fin 6, (joint_limits k).1 ≤ (joint_limits k).2 := by decide
  exact clamp_chain_mem _ _ _ (hlim j)

/-- C6: With an active mask holding exactly six true entries:
expanding the compression of a full-chain vector reproduces the original
values at every active position, and compressing the expansion of a
6-element reduced vector reproduces the reduced vector exactly. -/
theorem expand_compress_round_trip (mask : List Bool) (full reduced : List ℚ)
    (hmask : num_active mask = 6) (hfull : full.length = mask.length)
    (hred : reduced.length = 6) :
    (∀ i, i < mask.length → mask.getD i false = true →
      (active_to_full mask (full_to_active mask full)).getD i 0 =
        full.getD i 0) ∧
    full_to_active mask (active_to_full mask reduced) = reduced := by
  have hne : mask.isEmpty = false := by
    cases mask
    · exact absurd hmask (by decide)
    · rfl
  have hga : full_to_active mask full = gather_active mask full := by
    rw [full_to_active, hne]
    rfl
  have hlen : (gather_active mask full).length = 6 := by
    rw [gather_active_length mask full hfull, hmask]
  constructor
  · intro i hi ha
    calc (active_to_full mask (full_to_active mask full)).getD i 0
        = (scatter_active mask (gather_active mask full)).getD i 0 := by
          rw [hga, active_to_full, length_shim_of_length_six _ hlen]
      _ = ((mask.zip full).map fun p => if p.1 then p.2 else 0).getD i 0 := by
          rw [scatter_gather_masked mask full hfull]
      _ = full.getD i 0 := masked_getD mask full i hfull hi ha
  · have h1 : active_to_full mask reduced = scatter_active mask reduced := by
      rw [active_to_full, length_shim_of_length_six _ hred]
    rw [h1, full_to_active, hne]
    show gather_active mask (scatter_active mask reduced) = reduced
    rw [gather_scatter_take, hmask, ← hred, List.take_length]
    simp

/-- Witness for C6: a concrete 8-link mask with six active joints. -/
theorem expand_compress_round_trip_witness :
    (active_to_full [false, true, true, true, true, true, true, false]
        (full_to_active [false, true, true, true, true, true, true, false]
          [0, 9, 8, 7, 6, 5, 4, 0])).getD 1 0 =
      ([0, 9, 8, 7, 6, 5, 4, 0] : List ℚ).getD 1 0 ∧
    full_to_active [false, true, true, true, true, true, true, false]
        (active_to_full [false, true, true, true, true, true, true, false]
          [1, 2, 3, 4, 5, 6]) = [1, 2, 3, 4, 5, 6] := by
  constructor
  · exact (expand_compress_round_trip
      [false, true, true, true, true, true, true, false]
      [0, 9, 8, 7, 6, 5, 4, 0] [1, 2, 3, 4, 5, 6]
      (by decide) (by decide) (by decide)).1 1 (by decide) (by decide)
  · exact (expand_compress_round_trip
      [false, true, true, true, true, true, true, false]
      [0, 9, 8, 7, 6, 5, 4, 0] [1, 2, 3, 4, 5, 6]
      (by decide) (by decide) (by decide)).2

/-- The length shim as claim C9 describes it: inputs of length other than 7
resized to exactly six entries by zero padding. -/
def length_shim_zero_pad (active : List ℚ) : List ℚ :=
  let arr := if active.length = 7 then active.tail else active
  if arr.length ≠ 6 then arr.take 6 ++ List.replicate (6 - arr.length) 0 else arr

/-- C9 counterexample: A 1-element input is not zero-padded: `np.resize`
fills the six slots with repeated copies of the input, so the shim yields
`[1, 1, 1, 1, 1, 1]` where the claim's zero padding would yield
`[1, 0, 0, 0, 0, 0]`. -/
theorem active_to_full_short_input_not_zero_padded :
    active_to_full [true, true, true, true, true, true] [1] =
      [1, 1, 1, 1, 1, 1] ∧
    length_shim_zero_pad [1] = [1, 0, 0, 0, 0, 0] ∧
    active_to_full [true, true, true, true, true, true] [1] ≠
      scatter_active [true, true, true, true, true, true]
        (length_shim_zero_pad [1]) := by
  refine ⟨?_, ?_, ?_⟩ <;> decide

/-- C9 (amended): A 7-element input to `_active_to_full` has its first
element dropped (the remaining six are used unchanged); an input of any other
length different from 6 is resized to exactly six entries by `np.resize`,
which repeats the input cyclically — truncating inputs longer than six and
filling shorter inputs with repeated copies of themselves (an empty input
yields zeros), not with zero padding. -/
theorem active_to_full_length_shim (mask : List Bool) (active : List ℚ) :
    (active.length = 7 →
      active_to_full mask active = active_to_full mask active.tail) ∧
    (active.length ≠ 7 → active.length ≠ 6 →
      (length_shim active).length = 6 ∧
      ∀ i, i < 6 →
        (length_shim active).getD i 0 = active.getD (i % active.length) 0) := by
  constructor
  · intro h7
    have htl : active.tail.length = 6 := by
      rw [List.length_tail, h7]
    rw [active_to_full, active_to_full, length_shim_of_length_six _ htl]
    have : length_shim active = active.tail := by
      rw [length_shim]
      simp [h7, htl]
    rw [this]
  · intro h7 h6
    have harr : (if active.length = 7 then active.tail else active) = active := by
      simp [h7]
    have hshim : length_shim active = np_resize active 6 := by
      rw [length_shim]
      simp only [harr]
      rw [if_pos h6]
    rw [hshim]
    by_cases hemp : active.isEmpty
    · have hnil : active = [] := List.isEmpty_iff.mp hemp
      subst hnil
      constructor
      · rw [np_resize]
        simp
      · intro i hi
        rw [np_resize]
        simp
        interval_cases i <;> rfl
    · have hres : np_resize active 6 =
          (List.range 6).map fun i => active.getD (i % active.length) 0 := by
        rw [np_resize, if_neg (by simp [hemp])]
      rw [hres]
      constructor
      · simp
      · intro i hi
        rw [List.getD_eq_getElem?_getD]
        rw [List.getElem?_map]
        rw [List.getElem?_range hi]
        rfl

/-- Witness for C9: the 7-element legacy drop and the cyclic fill at
concrete inputs. -/
theorem active_to_full_length_shim_witness :
    active_to_full [true, true, true, true, true, true] [9, 1, 2, 3, 4, 5, 6] =
      active_to_full [true, true, true, true, true, true] [1, 2, 3, 4, 5, 6] ∧
    (length_shim [1, 2]).getD 2 0 = (1 : ℚ) := by
  constructor
  · exact (active_to_full_length_shim [true, true, true, true, true, true]
      [9, 1, 2, 3, 4, 5, 6]).1 (by decide)
  · exact (((active_to_full_length_shim [true, true, true, true, true, true]
      [1, 2]).2 (by decide) (by decide)).2 2 (by decide)).trans (by decide)

/-! ### Angle normalization of the jog tick (cartesian.py `_jog_thread`) -/

/-- Python float modulo `x % m`: `x - m * ⌊x / m⌋`, which lies in `[0, m)`
for positive `m`. -/
noncomputable def pymod (x m : ℝ) : ℝ := x - m * ⌊x / m⌋

/-- The per-element normalization after every jog-tick solve:
`(q + np.pi) % (2 * np.pi) - np.pi`. -/
noncomputable def normalize_angle (q : ℝ) : ℝ :=
  pymod (q + Real.pi) (2 * Real.pi) - Real.pi

/-- The normalization applied elementwise to the solver result `nj_model`. -/
noncomputable def normalize_joints (q : Fin 6 → ℝ) : Fin 6 → ℝ :=
  fun i => normalize_angle (q i)

lemma pymod_eq_fract (x m : ℝ) (hm : m ≠ 0) :
    pymod x m = m * Int.fract (x / m) := by
  rw [pymod, Int.fract, mul_sub, mul_div_cancel₀ _ hm]

lemma pymod_nonneg (x m : ℝ) (hm : 0 < m) : 0 ≤ pymod x m := by
  rw [pymod_eq_fract x m hm.ne']
  exact mul_nonneg hm.le (Int.fract_nonneg _)

lemma pymod_lt (x m : ℝ) (hm : 0 < m) : pymod x m < m := by
  rw [pymod_eq_fract x m hm.ne']
  calc m * Int.fract (x / m) < m * 1 :=
        (mul_lt_mul_left hm).mpr (Int.fract_lt_one _)
    _ = m := mul_one m

/-- C7 (amended): Every element of a jog-tick solver result, after the
normalization `(q + π) % (2π) - π`, lies in the half-open interval
`[-π, π)` (Python's `%` returns values in `[0, 2π)`, so the lower end is
closed and the upper end open — not `(-π, π]`). -/
theorem normalize_joints_mem_Ico (q : Fin 6 → ℝ) (i : Fin 6) :
    -Real.pi ≤ normalize_joints q i ∧ normalize_joints q i < Real.pi := by
  have h2 : (0 : ℝ) < 2 * Real.pi := by positivity
  constructor
  · have h := pymod_nonneg (q i + Real.pi) (2 * Real.pi) h2
    simp only [normalize_joints, normalize_angle]
    linarith
  · have h := pymod_lt (q i + Real.pi) (2 * Real.pi) h2
    simp only [normalize_joints, normalize_angle]
    linarith

/-- C7 counterexample: The solver value `π` normalizes to `-π`, which is
outside the claimed interval `(-π, π]`. -/
theorem normalize_angle_pi_outside_open_interval :
    normalize_angle Real.pi = -Real.pi ∧
    ¬ (-Real.pi < normalize_angle Real.pi) := by
  have hpi : (0 : ℝ) < Real.pi := Real.pi_pos
  have h2 : (2 : ℝ) * Real.pi ≠ 0 := by positivity
  have hdiv : (Real.pi + Real.pi) / (2 * Real.pi) = 1 := by
    rw [div_eq_one_iff_eq h2]
    ring
  have hmod : pymod (Real.pi + Real.pi) (2 * Real.pi) = 0 := by
    rw [pymod, hdiv, Int.floor_one]
    push_cast
    ring
  constructor
  · rw [normalize_angle, hmod]
    ring
  · rw [normalize_angle, hmod]
    simp

/-! ### Feedback debounce (cartesian.py `CartesianView.update_from_feedback`) -/

/-- The state of the Cartesian view touched by feedback handling:
`commanded_joints` (radians), `feedback_joints_deg` (degrees), the
`is_jogging` flag (set by jogging and by `_animate_move`) and
`last_jog_time` (set when motion ends). -/
structure CartFeedbackState where
  commanded : Fin 6 → ℝ
  feedback_deg : Fin 6 → ℝ
  is_jogging : Bool
  last_jog_time : ℝ

open Classical in
/-- Source: `CartesianView.update_from_feedback` at time `now`, receiving a sample
`joint_values` (degrees; `none` for a joint key missing from the dict): the
sample always updates the displayed feedback values; `commanded` is untouched
while `is_jogging` or within 1.5 s of `last_jog_time`; otherwise each joint
whose commanded value diverges from the feedback (converted to radians) by
more than `np.radians(0.5)` is resynchronized to the feedback. -/
noncomputable def update_from_feedback (st : CartFeedbackState) (now : ℝ)
    (joint_values : Fin 6 → Option ℝ) : CartFeedbackState :=
  let fb : Fin 6 → ℝ := fun i => (joint_values i).getD (st.feedback_deg i)
  if st.is_jogging then { st with feedback_deg := fb }
  else if now - st.last_jog_time < 1.5 then { st with feedback_deg := fb }
  else
    { st with
      feedback_deg := fb
      commanded := fun i =>
        if |st.commanded i - radians (fb i)| > radians 0.5 then radians (fb i)
        else st.commanded i }

/-- C4: A feedback sample always updates the displayed feedback values;
it never changes the commanded joint vector while a jog or move is active or
within 1.5 s of the last motion end, even beyond the deadband; outside that
window each joint diverging from the feedback by more than 0.5° is
resynchronized to the feedback value and every other joint keeps its
commanded value. -/
theorem feedback_sample_debounce (st : CartFeedbackState) (now : ℝ)
    (joint_values : Fin 6 → Option ℝ) :
    (update_from_feedback st now joint_values).feedback_deg =
      (fun i => (joint_values i).getD (st.feedback_deg i)) ∧
    (st.is_jogging = true →
      (update_from_feedback st now joint_values).commanded = st.commanded) ∧
    (now - st.last_jog_time < 1.5 →
      (update_from_feedback st now joint_values).commanded = st.commanded) ∧
    (st.is_jogging = false → 1.5 ≤ now - st.last_jog_time → ∀ i,
      (radians 0.5 <
          |st.commanded i - radians ((joint_values i).getD (st.feedback_deg i))| →
        (update_from_feedback st now joint_values).commanded i =
          radians ((joint_values i).getD (st.feedback_deg i))) ∧
      (|st.commanded i - radians ((joint_values i).getD (st.feedback_deg i))| ≤
          radians 0.5 →
        (update_from_feedback st now joint_values).commanded i =
          st.commanded i)) := by
  refine ⟨?_, ?_, ?_, ?_⟩
  · simp only [update_from_feedback]
    split
    · rfl
    · split
      · rfl
      · rfl
  · intro h
    simp [update_from_feedback, h]
  · intro h
    by_cases hj : st.is_jogging
    · simp [update_from_feedback, hj]
    · simp [update_from_feedback, hj, h]
  · intro hj ht i
    have hcond : ¬ (now - st.last_jog_time < 1.5) := not_lt.mpr ht
    constructor
    · intro hgt
      simp only [update_from_feedback, hj, Bool.false_eq_true, if_false,
        if_neg hcond]
      rw [if_pos hgt]
    · intro hle
      simp only [update_from_feedback, hj, Bool.false_eq_true, if_false,
        if_neg hcond]
      rw [if_neg (not_lt.mpr hle)]

/-- Witness for C4: a sample arriving during a jog leaves the commanded
vector unchanged, and a stationary sample diverging by 180° (far beyond the
0.5° deadband) resynchronizes a commanded joint to `radians 180`. -/
theorem feedback_sample_debounce_witness :
    (update_from_feedback ⟨fun _ => 0, fun _ => 0, true, 0⟩ 0
        (fun _ => none)).commanded = (fun _ => 0) ∧
    (update_from_feedback ⟨fun _ => 0, fun _ => 0, false, 0⟩ 2
        (fun _ => some 180)).commanded 0 = radians 180 := by
  constructor
  · exact (feedback_sample_debounce ⟨fun _ => 0, fun _ => 0, true, 0⟩ 0
      (fun _ => none)).2.1 rfl
  · refine ((feedback_sample_debounce ⟨fun _ => 0, fun _ => 0, false, 0⟩ 2
      (fun _ => some 180)).2.2.2 rfl (by norm_num) 0).1 ?_
    have hpi : (0 : ℝ) < Real.pi := Real.pi_pos
    simp only [Option.getD_some, radians]
    rw [zero_sub, abs_neg, abs_of_nonneg (by positivity)]
    have hd : (0 : ℝ) < Real.pi / 180 := by positivity
    linarith

/-! ### Point-to-point move interpolation (`_animate_move` of both views) -/

/-- Joint vectors as points of 6-dimensional Euclidean space;
`np.linalg.norm` is the Euclidean norm. -/
abbrev Joint6 := EuclideanSpace ℝ (Fin 6)

open Classical in
/-- One tick of an `_animate_move` loop toward `target`: when the remaining
joint-space distance is below `tol` the vector snaps exactly to the target,
otherwise it steps `min dist cap` along the straight line to the target. -/
noncomputable def animate_step (tol cap : ℝ) (target current : Joint6) : Joint6 :=
  if ‖target - current‖ < tol then target
  else current + (min ‖target - current‖ cap / ‖target - current‖) • (target - current)

/-- Source: `CartesianView._animate_move` (radians): tolerance 0.005, step cap
`0.075 * factor` per 0.05 s tick, `factor = jog_speed_percent / 100`. -/
noncomputable def animate_step_cart (factor : ℝ) (target current : Joint6) : Joint6 :=
  animate_step 0.005 (0.075 * factor) target current

/-- Source: `JogView._animate_move` (degrees): tolerance 0.1, step cap
`4.5 * factor` per tick, `factor = speed_percent / 100`. -/
noncomputable def animate_step_jog (factor : ℝ) (target current : Joint6) : Joint6 :=
  animate_step 0.1 (4.5 * factor) target current

lemma animate_step_snap (tol cap : ℝ) (target current : Joint6)
    (h : ‖target - current‖ < tol) :
    animate_step tol cap target current = target := by
  rw [animate_step, if_pos h]

lemma animate_step_self (tol cap : ℝ) (target : Joint6) (htol : 0 < tol) :
    animate_step tol cap target target = target := by
  apply animate_step_snap
  simpa using htol

lemma animate_step_dist (tol cap : ℝ) (target current : Joint6) (htol : 0 < tol)
    (h : ¬ ‖target - current‖ < tol) :
    ‖target - animate_step tol cap target current‖ =
      ‖target - current‖ - min ‖target - current‖ cap := by
  have hd : 0 < ‖target - current‖ := lt_of_lt_of_le htol (not_lt.mp h)
  have hratio : min ‖target - current‖ cap / ‖target - current‖ ≤ 1 :=
    (div_le_one hd).mpr (min_le_left _ _)
  rw [animate_step, if_neg h, sub_add_eq_sub_sub]
  have hsmul : target - current -
      (min ‖target - current‖ cap / ‖target - current‖) • (target - current) =
      (1 - min ‖target - current‖ cap / ‖target - current‖) • (target - current) := by
    rw [sub_smul, one_smul]
  rw [hsmul, norm_smul, Real.norm_eq_abs, abs_of_nonneg (sub_nonneg.mpr hratio),
    sub_mul, one_mul, div_mul_cancel₀ _ (ne_of_gt hd)]

lemma animate_step_dist_le (tol cap : ℝ) (target current : Joint6)
    (htol : 0 < tol) (hcap : 0 ≤ cap) :
    ‖target - animate_step tol cap target current‖ ≤ ‖target - current‖ := by
  by_cases h : ‖target - current‖ < tol
  · rw [animate_step_snap tol cap target current h]
    simp
  · rw [animate_step_dist tol cap target current htol h]
    have : 0 ≤ min ‖target - current‖ cap := le_min (norm_nonneg _) hcap
    linarith

lemma animate_step_reaches (tol cap : ℝ) (htol : 0 < tol) (hcap : tol ≤ cap)
    (target : Joint6) :
    ∀ k : ℕ, ∀ current : Joint6,
      ‖target - current‖ ≤ ((k : ℝ) + 1) * cap →
      (animate_step tol cap target)^[k + 2] current = target := by
  intro k
  induction k with
  | zero =>
    intro c hc
    have hcap' : ‖target - c‖ ≤ cap := by
      have : ((0 : ℕ) : ℝ) + 1 = 1 := by norm_num
      rw [this, one_mul] at hc
      exact hc
    have h1 : animate_step tol cap target c = target := by
      by_cases h : ‖target - c‖ < tol
      · exact animate_step_snap _ _ _ _ h
      · have hd : 0 < ‖target - c‖ := lt_of_lt_of_le htol (not_lt.mp h)
        rw [animate_step, if_neg h, min_eq_left hcap', div_self (ne_of_gt hd),
          one_smul]
        abel
    have h2 : (animate_step tol cap target)^[0 + 2] c =
        animate_step tol cap target (animate_step tol cap target c) := by
      rw [show 0 + 2 = 1 + 1 from rfl, Function.iterate_succ_apply',
        Function.iterate_one]
    rw [h2, h1]
    exact animate_step_self tol cap target htol
  | succ n ih =>
    intro c hc
    by_cases hcase : ‖target - c‖ ≤ ((n : ℝ) + 1) * cap
    · have h2 := ih c hcase
      rw [show n + 1 + 2 = (n + 2) + 1 from rfl, Function.iterate_succ_apply', h2]
      exact animate_step_self tol cap target htol
    · push_neg at hcase
      have hcappos : 0 < cap := lt_of_lt_of_le htol hcap
      have hone : (1 : ℝ) ≤ (n : ℝ) + 1 := by
        have := Nat.cast_nonneg (α := ℝ) n
        linarith
      have hdcap : cap < ‖target - c‖ :=
        lt_of_le_of_lt (le_mul_of_one_le_left hcappos.le hone) hcase
      have hnl : ¬ ‖target - c‖ < tol := not_lt.mpr (le_trans hcap hdcap.le)
      have hstep := animate_step_dist tol cap target c htol hnl
      rw [min_eq_right hdcap.le] at hstep
      have hc' : ‖target - c‖ ≤ (((n : ℕ) : ℝ) + 1 + 1) * cap := by
        push_cast at hc
        linarith
      have hnext : ‖target - animate_step tol cap target c‖ ≤
          ((n : ℝ) + 1) * cap := by
        rw [hstep]
        nlinarith
      rw [show n + 1 + 2 = (n + 2) + 1 from rfl, Function.iterate_succ_apply]
      exact ih _ hnext

/-- C8: For both `_animate_move` loops (Cartesian view: snap tolerance
0.005 rad, step cap `0.075 * factor`; joint view: 0.1°, `4.5 * factor`), with
the speed factor at least 0.1 (the velocity slider is clamped to 10..100%):
the joint-space distance to the target never increases on a tick; each
non-snap tick travels exactly `min dist cap`, clamped to the remaining
distance, so the motion never overshoots; below the snap tolerance the vector
is set exactly to the target; and the target is reached exactly within a
bounded number of ticks. -/
theorem animate_move_converges (factor : ℝ) (hf : 0.1 ≤ factor)
    (target current : Joint6) :
    (‖target - animate_step_cart factor target current‖ ≤ ‖target - current‖ ∧
      (¬ ‖target - current‖ < 0.005 →
        ‖target - animate_step_cart factor target current‖ =
          ‖target - current‖ - min ‖target - current‖ (0.075 * factor)) ∧
      (‖target - current‖ < 0.005 →
        animate_step_cart factor target current = target) ∧
      (∀ k : ℕ, ‖target - current‖ ≤ ((k : ℝ) + 1) * (0.075 * factor) →
        (animate_step_cart factor target)^[k + 2] current = target)) ∧
    (‖target - animate_step_jog factor target current‖ ≤ ‖target - current‖ ∧
      (¬ ‖target - current‖ < 0.1 →
        ‖target - animate_step_jog factor target current‖ =
          ‖target - current‖ - min ‖target - current‖ (4.5 * factor)) ∧
      (‖target - current‖ < 0.1 →
        animate_step_jog factor target current = target) ∧
      (∀ k : ℕ, ‖target - current‖ ≤ ((k : ℝ) + 1) * (4.5 * factor) →
        (animate_step_jog factor target)^[k + 2] current = target)) := by
  have hc1 : (0.005 : ℝ) ≤ 0.075 * factor := by nlinarith
  have hc2 : (0.1 : ℝ) ≤ 4.5 * factor := by nlinarith
  refine ⟨⟨?_, ?_, ?_, ?_⟩, ⟨?_, ?_, ?_, ?_⟩⟩
  · exact animate_step_dist_le 0.005 (0.075 * factor) target current (by norm_num)
      (by nlinarith)
  · exact animate_step_dist 0.005 (0.075 * factor) target current (by norm_num)
  · exact animate_step_snap 0.005 (0.075 * factor) target current
  · exact fun k hk =>
      animate_step_reaches 0.005 (0.075 * factor) (by norm_num) hc1 target k
        current hk
  · exact animate_step_dist_le 0.1 (4.5 * factor) target current (by norm_num)
      (by nlinarith)
  · exact animate_step_dist 0.1 (4.5 * factor) target current (by norm_num)
  · exact animate_step_snap 0.1 (4.5 * factor) target current
  · exact fun k hk =>
      animate_step_reaches 0.1 (4.5 * factor) (by norm_num) hc2 target k
        current hk

/-- Witness for C8: at full speed, from the target itself both loops snap to
the target and stay there. -/
theorem animate_move_converges_witness :
    animate_step_cart 1 0 0 = 0 ∧ (animate_step_jog 1 0)^[2] 0 = 0 := by
  constructor
  · exact (animate_move_converges 1 (by norm_num) 0 0).1.2.2.1 (by norm_num)
  · exact (animate_move_converges 1 (by norm_num) 0 0).2.2.2.2 0 (by norm_num)

/-! ### Homing gate of the motion entry points (both views) -/

/-- The view state consulted by the motion entry points. -/
structure ViewState where
  is_robot_homed : Bool
  is_jogging : Bool
  commanded : Joint6

/-- Outcome of a jog-start request. -/
inductive JogStartOutcome
  /-- The homing-required dialog was shown and error E1 raised. -/
  | refusedNotHomed
  /-- A jog session was already active; the request is a no-op. -/
  | ignoredAlreadyJogging
  /-- The jog thread starts. -/
  | started

/-- Source: `on_jog_start` of `CartesianView` and `JogView`: before homing the
request returns immediately after showing the homing-required dialog (which
raises error E1), leaving the state untouched; while already jogging it is a
no-op; otherwise the jog session starts. -/
def on_jog_start (st : ViewState) : ViewState × JogStartOutcome :=
  if st.is_robot_homed = false then (st, JogStartOutcome.refusedNotHomed)
  else if st.is_jogging then (st, JogStartOutcome.ignoredAlreadyJogging)
  else ({ st with is_jogging := true }, JogStartOutcome.started)

/-- The guard of `_animate_move` in both views (reached from the SAFETY and
STANDBY buttons): the move body runs unless a jog is already active;
`is_robot_homed` is not consulted. -/
def animate_move_starts (st : ViewState) : Bool := !st.is_jogging

/-- The SAFETY move target of `CartesianView.on_safety_click`:
`np.radians([0, -50, 70, 90, 0, 0])`. -/
noncomputable def safety_target_rad : Joint6 :=
  fun i => radians (![0, -50, 70, 90, 0, 0] i)

lemma coord_le_norm (x : Joint6) (i : Fin 6) : |x i| ≤ ‖x‖ := by
  rw [EuclideanSpace.norm_eq]
  rw [show |x i| = Real.sqrt (|x i| ^ 2) from (Real.sqrt_sq (abs_nonneg _)).symm]
  apply Real.sqrt_le_sqrt
  rw [show |x i| ^ 2 = ‖x i‖ ^ 2 by rw [Real.norm_eq_abs]]
  have hnn : ∀ j ∈ Finset.univ, (0 : ℝ) ≤ ‖x j‖ ^ 2 := fun j _ => sq_nonneg _
  exact Finset.single_le_sum hnn (Finset.mem_univ i)

lemma animate_step_moves (tol cap : ℝ) (htol : 0 < tol) (hcap : 0 < cap)
    (target current : Joint6) (h : tol ≤ ‖target - current‖) :
    animate_step tol cap target current ≠ current := by
  have hd : 0 < ‖target - current‖ := lt_of_lt_of_le htol h
  have hne : target - current ≠ 0 := by
    intro h0
    rw [h0, norm_zero] at hd
    exact lt_irrefl _ hd
  rw [animate_step, if_neg (not_lt.mpr h)]
  intro heq
  have hzero : (min ‖target - current‖ cap / ‖target - current‖) •
      (target - current) = 0 := add_right_eq_self.mp heq
  have hsc : min ‖target - current‖ cap / ‖target - current‖ ≠ 0 :=
    div_ne_zero (ne_of_gt (lt_min hd hcap)) (ne_of_gt hd)
  rcases smul_eq_zero.mp hzero with h1 | h2
  · exact hsc h1
  · exact hne h2

/-- C5 counterexample: With the robot not homed and no jog active, the
SAFETY move is not refused: the `_animate_move` guard passes (it only checks
`is_jogging`) and the first interpolation tick at the default 50% speed
changes the commanded vector away from its previous value. -/
theorem safety_move_proceeds_unhomed :
    animate_move_starts ⟨false, false, 0⟩ = true ∧
    animate_step_cart 0.5 safety_target_rad 0 ≠ 0 := by
  constructor
  · rfl
  · show animate_step 0.005 (0.075 * 0.5) safety_target_rad 0 ≠ 0
    apply animate_step_moves 0.005 (0.075 * 0.5) (by norm_num) (by norm_num)
    rw [sub_zero]
    have h1 : |safety_target_rad 1| ≤ ‖safety_target_rad‖ := coord_le_norm _ 1
    have h2 : safety_target_rad 1 = radians (-50) := by
      simp [safety_target_rad]
    have hpi3 : (3 : ℝ) < Real.pi := Real.pi_gt_three
    have h3 : (0.005 : ℝ) ≤ |radians (-50)| := by
      rw [radians, abs_of_nonpos (by nlinarith [Real.pi_pos])]
      nlinarith
    calc (0.005 : ℝ) ≤ |radians (-50)| := h3
      _ = |safety_target_rad 1| := by rw [h2]
      _ ≤ ‖safety_target_rad‖ := h1

/-- C5 (amended): Every jog request issued before the robot is homed is
refused outright with no change to the view state (in particular the
commanded joint vector), and the refusal is surfaced to the operator
(homing-required dialog, error E1); the point-to-point SAFETY and STANDBY
moves, however, are not gated on homing: their guard ignores
`is_robot_homed` and only refuses while a jog is already active. -/
theorem jog_refused_before_homing (st : ViewState)
    (h : st.is_robot_homed = false) :
    on_jog_start st = (st, JogStartOutcome.refusedNotHomed) ∧
    (∀ b : Bool, animate_move_starts { st with is_robot_homed := b } =
      animate_move_starts st) := by
  constructor
  · rw [on_jog_start, if_pos h]
  · intro b
    rfl

/-- Witness for C5: a concrete unhomed, idle state whose jog request is
refused with the state unchanged. -/
theorem jog_refused_before_homing_witness :
    on_jog_start ⟨false, false, 0⟩ =
      (⟨false, false, 0⟩, JogStartOutcome.refusedNotHomed) :=
  (jog_refused_before_homing ⟨false, false, 0⟩ rfl).1

end Parol6
